import Mathlib

/-!
Shallow embedding of the Aidrr tech-jobs bot (jobbot.py and the variant
under .github/workflows/jobbot.py): the dedupe fingerprint, the Canada
location filter, the US hard-reject, the 429 retry loop, the per-run
pipeline fold, the seen-set persistence payload, and the Slack chunking
and summary output.  All machine arithmetic is Nat with explicit mod 2^32.
-/

set_option maxRecDepth 8000

/-! ## Python string primitives -/

-- Python str.strip() default whitespace set (ASCII part).
def isPySpace (c : Char) : Bool :=
  c = ' ' || c = '\t' || c = '\n' || c = '\r' || c = '\x0b' || c = '\x0c'

def pyStrip (s : String) : String :=
  String.mk (((s.data.dropWhile isPySpace).reverse.dropWhile isPySpace).reverse)

-- Python str.lower()/str.upper(); the data handled by the bot is ASCII.
def pyLower (s : String) : String := String.mk (s.data.map Char.toLower)

def pyUpper (s : String) : String := String.mk (s.data.map Char.toUpper)

-- Python substring test `pat in s`.
def strContains (s pat : String) : Bool := decide (pat.data <:+: s.data)

-- Python truthiness for an optional string: None and "" are falsy.
def truthyStr : Option String → Option String
  | some s => if s = "" then none else some s
  | none => none

-- Python `a or b or ""` on two optional strings.
def pyOrStr (a b : Option String) : String :=
  ((truthyStr a).orElse (fun _ => truthyStr b)).getD ""

-- Python sep.join(parts).
def pyJoin (sep : String) : List String → String
  | [] => ""
  | [x] => x
  | x :: y :: rest => x ++ sep ++ pyJoin sep (y :: rest)

/-! ## Configuration constants (jobbot.py lines 32-64) -/

def COUNTRY_CODE : String := "CA"

def CANADA_KEYWORDS : List String :=
  ["canada", "on, canada", "bc, canada", "ab, canada", "mb, canada", "sk, canada", "ns, canada",
   "nb, canada", "nl, canada", "pe, canada", "yt, canada", "nt, canada", "nu, canada",
   "ontario", "toronto", "mississauga", "brampton", "waterloo", "kitchener", "cambridge, on",
   "vancouver", "burnaby", "surrey", "victoria", "calgary", "edmonton", "ottawa", "montreal",
   "winnipeg", "halifax", "regina", "saskatoon", "quebec"]

def ONLY_DIRECT_APPLY : Bool := false

def MAX_RETRIES_429 : Nat := 3

def SLACK_CHUNK_CHAR_LIMIT : Nat := 3000

/-! ## JobRecord model

A job dict from the upstream API.  Fields the bot reads; an absent key is
none.  A non-string JSON value never occurs in the data the bot consumes,
so fields are optional strings. -/

structure ApplyOption where
  is_direct : Option Bool
  apply_link : Option String
  link : Option String
deriving DecidableEq

structure Job where
  job_id : Option String
  job_title : Option String
  employer_name : Option String
  job_city : Option String
  job_state : Option String
  job_country : Option String
  job_country_code : Option String
  job_location : Option String
  job_apply_link : Option String
  job_url : Option String
  job_employment_type : Option String
  job_is_remote : Option Bool
  -- `job.get("apply_options") or []` guarded by isinstance(list): absent or
  -- non-list collapses to []; non-dict elements are the none entries.
  apply_options : List (Option ApplyOption)
deriving DecidableEq

def emptyJob : Job :=
  ⟨none, none, none, none, none, none, none, none, none, none, none, none, []⟩

/-! ## SHA-256 over byte lists (hashlib.sha256), Nat arithmetic mod 2^32 -/

def w32 : Nat := 4294967296

def rotr32 (n x : Nat) : Nat := ((x >>> n) ||| (x <<< (32 - n))) % w32

def bnot32 (x : Nat) : Nat := x ^^^ (w32 - 1)

def sha256K : List Nat :=
  [1116352408, 1899447441, 3049323471, 3921009573, 961987163, 1508970993,
   2453635748, 2870763221, 3624381080, 310598401, 607225278, 1426881987,
   1925078388, 2162078206, 2614888103, 3248222580, 3835390401, 4022224774,
   264347078, 604807628, 770255983, 1249150122, 1555081692, 1996064986,
   2554220882, 2821834349, 2952996808, 3210313671, 3336571891, 3584528711,
   113926993, 338241895, 666307205, 773529912, 1294757372, 1396182291,
   1695183700, 1986661051, 2177026350, 2456956037, 2730485921, 2820302411,
   3259730800, 3345764771, 3516065817, 3600352804, 4094571909, 275423344,
   430227734, 506948616, 659060556, 883997877, 958139571, 1322822218,
   1537002063, 1747873779, 1955562222, 2024104815, 2227730452, 2361852424,
   2428436474, 2756734187, 3204031479, 3329325298]

structure Hash8 where
  a : Nat
  b : Nat
  c : Nat
  d : Nat
  e : Nat
  f : Nat
  g : Nat
  h : Nat

def sha256Init : Hash8 :=
  ⟨1779033703, 3144134277, 1013904242, 2773480762,
   1359893119, 2600822924, 528734635, 1541459225⟩

def be32 (b0 b1 b2 b3 : Nat) : Nat := ((b0 * 256 + b1) * 256 + b2) * 256 + b3

def toWords : List Nat → List Nat
  | b0 :: b1 :: b2 :: b3 :: rest => be32 b0 b1 b2 b3 :: toWords rest
  | _ => []

def extendSchedule : Nat → List Nat → List Nat
  | 0, ws => ws
  | k+1, ws =>
    let i := ws.length
    let w15 := ws.getD (i - 15) 0
    let w2 := ws.getD (i - 2) 0
    let w16 := ws.getD (i - 16) 0
    let w7 := ws.getD (i - 7) 0
    let s0 := (rotr32 7 w15) ^^^ (rotr32 18 w15) ^^^ (w15 >>> 3)
    let s1 := (rotr32 17 w2) ^^^ (rotr32 19 w2) ^^^ (w2 >>> 10)
    extendSchedule k (ws ++ [(w16 + s0 + w7 + s1) % w32])

def schedule (block : List Nat) : List Nat := extendSchedule 48 (toWords block)

def sha256Round (st : Hash8) (wk : Nat × Nat) : Hash8 :=
  let s1 := (rotr32 6 st.e) ^^^ (rotr32 11 st.e) ^^^ (rotr32 25 st.e)
  let ch := (st.e &&& st.f) ^^^ ((bnot32 st.e) &&& st.g)
  let temp1 := (st.h + s1 + ch + wk.2 + wk.1) % w32
  let s0 := (rotr32 2 st.a) ^^^ (rotr32 13 st.a) ^^^ (rotr32 22 st.a)
  let maj := (st.a &&& st.b) ^^^ (st.a &&& st.c) ^^^ (st.b &&& st.c)
  let temp2 := (s0 + maj) % w32
  ⟨(temp1 + temp2) % w32, st.a, st.b, st.c, (st.d + temp1) % w32, st.e, st.f, st.g⟩

def compressBlock (h0 : Hash8) (block : List Nat) : Hash8 :=
  let fin := ((schedule block).zip sha256K).foldl sha256Round h0
  ⟨(h0.a + fin.a) % w32, (h0.b + fin.b) % w32, (h0.c + fin.c) % w32, (h0.d + fin.d) % w32,
   (h0.e + fin.e) % w32, (h0.f + fin.f) % w32, (h0.g + fin.g) % w32, (h0.h + fin.h) % w32⟩

def be64Bytes (n : Nat) : List Nat :=
  [(n >>> 56) % 256, (n >>> 48) % 256, (n >>> 40) % 256, (n >>> 32) % 256,
   (n >>> 24) % 256, (n >>> 16) % 256, (n >>> 8) % 256, n % 256]

def sha256Pad (msg : List Nat) : List Nat :=
  msg ++ [0x80] ++ List.replicate ((119 - (msg.length % 64)) % 64) 0 ++ be64Bytes (8 * msg.length)

-- Block splitting with the list length as structural fuel (one block
-- consumes 64 bytes, so the length bounds the number of blocks).
def toBlocksF : Nat → List Nat → List (List Nat)
  | 0, _ => []
  | _+1, [] => []
  | n+1, l => l.take 64 :: toBlocksF n (l.drop 64)

def sha256Words (msg : List Nat) : Hash8 :=
  let padded := sha256Pad msg
  (toBlocksF padded.length padded).foldl compressBlock sha256Init

def wordBytes (w : Nat) : List Nat :=
  [(w >>> 24) % 256, (w >>> 16) % 256, (w >>> 8) % 256, w % 256]

def sha256Bytes (msg : List Nat) : List Nat :=
  let d := sha256Words msg
  wordBytes d.a ++ wordBytes d.b ++ wordBytes d.c ++ wordBytes d.d ++
  wordBytes d.e ++ wordBytes d.f ++ wordBytes d.g ++ wordBytes d.h

def hexDigitChar (n : Nat) : Char := if n < 10 then Char.ofNat (48 + n) else Char.ofNat (87 + n)

def byteHex (b : Nat) : List Char := [hexDigitChar (b / 16 % 16), hexDigitChar (b % 16)]

def bytesHex (bs : List Nat) : List Char := bs.flatMap byteHex

def utf8Char (c : Char) : List Nat :=
  let n := c.toNat
  if n < 0x80 then [n]
  else if n < 0x800 then [0xc0 ||| (n >>> 6), 0x80 ||| (n &&& 0x3f)]
  else if n < 0x10000 then
    [0xe0 ||| (n >>> 12), 0x80 ||| ((n >>> 6) &&& 0x3f), 0x80 ||| (n &&& 0x3f)]
  else
    [0xf0 ||| (n >>> 18), 0x80 ||| ((n >>> 12) &&& 0x3f), 0x80 ||| ((n >>> 6) &&& 0x3f),
     0x80 ||| (n &&& 0x3f)]

def utf8Encode (s : String) : List Nat := s.data.flatMap utf8Char

/-! ## stable_job_id (jobbot.py lines 145-162) -/

def rawIdentity (job : Job) : String :=
  (job.job_id.getD "") ++ "|" ++ (job.job_title.getD "") ++ "|" ++ (job.employer_name.getD "")
    ++ "|" ++ (job.job_city.getD "") ++ "|" ++ (job.job_state.getD "")
    ++ "|" ++ (job.job_country.getD "") ++ "|" ++ pyOrStr job.job_apply_link job.job_url

def stable_job_id (job : Job) : String :=
  String.mk ((bytesHex (sha256Bytes (utf8Encode (rawIdentity job)))).take 24)

/-! ## pick_best_link (lines 164-184) -/

def optLinkOf (opt : ApplyOption) : Option String :=
  (truthyStr opt.apply_link).orElse (fun _ => truthyStr opt.link)

def scanOptions : List (Option ApplyOption) → Option String → Option String
  | [], acc => acc
  | none :: rest, acc => scanOptions rest acc
  | some opt :: rest, acc =>
    match optLinkOf opt with
    | some link =>
      if opt.is_direct = some true then some link
      else scanOptions rest (if acc = none then some link else acc)
    | none => scanOptions rest acc

def pick_best_link (job : Job) : Option String :=
  ((scanOptions job.apply_options none).orElse (fun _ => truthyStr job.job_apply_link)).orElse
    (fun _ => truthyStr job.job_url)

/-! ## is_canada_job (lines 186-208) and looks_like_us (lines 210-218) -/

def combinedLocation (job : Job) : String :=
  let city := pyLower (pyStrip (job.job_city.getD ""))
  let state := pyLower (pyStrip (job.job_state.getD ""))
  let location := pyLower (pyStrip (job.job_location.getD ""))
  pyStrip (city ++ " " ++ state ++ " " ++ location)

def is_canada_job (job : Job) : Bool :=
  let cc := pyUpper (pyStrip (job.job_country_code.getD ""))
  if cc = COUNTRY_CODE then true
  else
    let country_text := pyLower (pyStrip (job.job_country.getD ""))
    if strContains country_text "canada" then true
    else CANADA_KEYWORDS.any (fun kw => strContains (combinedLocation job) kw)

def looks_like_us (job : Job) : Bool :=
  let cc := pyUpper (pyStrip (job.job_country_code.getD ""))
  if cc = "US" then true
  else
    let country_text := pyLower (pyStrip (job.job_country.getD ""))
    country_text = "united states" || strContains country_text "usa"

/-! ## format_job (lines 220-252) -/

def format_job (job : Job) (group_name : String) : Option String :=
  let title := pyStrip (job.job_title.getD "")
  let company := pyStrip (job.employer_name.getD "")
  let city := pyStrip (job.job_city.getD "")
  let state := pyStrip (job.job_state.getD "")
  let country := pyStrip (job.job_country.getD "")
  let employment := pyStrip (job.job_employment_type.getD "")
  match pick_best_link job with
  | none => none
  | some link =>
    if ONLY_DIRECT_APPLY && (truthyStr job.job_apply_link).isNone && job.apply_options.isEmpty
    then none
    else
      let loc_parts := [city, state, country].filter (fun x => x != "")
      let loc := if loc_parts.isEmpty then "Canada" else pyJoin ", " loc_parts
      let remote_tag := if job.job_is_remote = some true then "Remote" else "On-site/Hybrid"
      let emp_tag := if employment = "" then "Tech" else employment
      some ("*" ++ group_name ++ "*\n*" ++ title ++ "* | " ++ company ++ "\n"
        ++ loc ++ " • " ++ remote_tag ++ " • " ++ emp_tag ++ "\n" ++ link)

/-! ## jsearch_request (lines 254-277)

The HTTP world is an oracle giving the outcome of the attempt numbered n
(first attempt is n = 1): a 2xx response with parsed body, a 429, or a
RequestException (this covers non-2xx raise_for_status and network
errors, which the except branch handles identically).  The loop variable
retriesLeft equals MAX_RETRIES_429 + 1 - attempt: the code retries while
attempt <= MAX_RETRIES_429 and gives up when attempt exceeds it. -/

abbrev PageJson := Option (List (Option Job))

inductive HttpResult
  | ok (body : PageJson)
  | status429
  | requestError

def fetchGo (oracle : Nat → HttpResult) : Nat → Bool → Nat → Option PageJson × Bool
  | attempt, rl, retriesLeft =>
    match oracle attempt, retriesLeft with
    | .ok body, _ => (some body, rl)
    | .status429, 0 => (none, true)
    | .status429, n+1 => fetchGo oracle (attempt + 1) true n
    | .requestError, 0 => (none, rl)
    | .requestError, n+1 => fetchGo oracle (attempt + 1) rl n

def jsearch_request (oracle : Nat → HttpResult) : Option PageJson × Bool :=
  fetchGo oracle 1 false MAX_RETRIES_429

/-! ## The per-run pipeline (main, lines 283-345) -/

structure RunState where
  seen : List String
  posted : List String
  total_found : Nat
  total_kept_canada : Nat
  total_new : Nat
  rate_limited_queries : Nat

-- Loop body over one element of a page result list (lines 320-343).
def jobStep (group_name : String) (st : RunState) (item : Option Job) : RunState :=
  match item with
  | none => st
  | some job =>
    if looks_like_us job then st
    else if !(is_canada_job job) then st
    else
      let st1 := { st with total_kept_canada := st.total_kept_canada + 1 }
      let jid := stable_job_id job
      if st1.seen.contains jid then st1
      else
        match format_job job group_name with
        | none => st1
        | some block =>
          { st1 with
            posted := st1.posted ++ [block],
            seen := st1.seen ++ [jid],
            total_new := st1.total_new + 1 }

-- One planned page fetch: group name, parsed body (none when the request
-- failed or the body had no well-formed data list), and the 429 flag.
abbrev PlanItem := String × PageJson × Bool

abbrev Plan := List PlanItem

def pageStep (st : RunState) (p : PlanItem) : RunState :=
  match p with
  | (gn, data, rl) =>
    let st1 :=
      if rl then { st with rate_limited_queries := st.rate_limited_queries + 1 } else st
    match data with
    | none => st1
    | some jobs =>
      let st2 := { st1 with total_found := st1.total_found + jobs.length }
      jobs.foldl (jobStep gn) st2

def initState (seen0 : List String) : RunState := ⟨seen0, [], 0, 0, 0, 0⟩

def runPlan (seen0 : List String) (plan : Plan) : RunState :=
  plan.foldl pageStep (initState seen0)

/-! ## save_seen (lines 132-138): the list persisted under the seen key -/

def save_seen (seen : List String) : List String := seen.mergeSort (fun a b => a ≤ b)

-- Workflows variant (.github/workflows/jobbot.py line 133):
-- state["seen"] = list(seen)[-3000:], over the iteration order of the set.
def wfStateSeen (iterOrder : List String) : List String :=
  iterOrder.drop (iterOrder.length - 3000)

/-! ## Slack output (lines 351-384) -/

def headerMsg (st : RunState) : String :=
  "✅ Aidrr Tech Jobs Bot: Posted " ++ toString st.total_new
    ++ " *new* Canada jobs.\nScanned: " ++ toString st.total_found
    ++ " results • Canada-kept: " ++ toString st.total_kept_canada
    ++ " • Rate-limited queries: " ++ toString st.rate_limited_queries

def rateLimitedMsg (st : RunState) : String :=
  "⚠️ No *new* Canada tech jobs posted this run.\nNote: "
    ++ toString st.rate_limited_queries
    ++ " searches were rate-limited (429), so results may be incomplete.\n"
    ++ "If this keeps happening, reduce PAGES_PER_QUERY, reduce role groups, or increase API_CALL_DELAY_SECONDS."

def noNewMsg : String :=
  "ℹ️ No *new* Canada tech jobs posted this run.\n"
    ++ "This usually means the API returned jobs you already posted (seen cache), or nothing matched filters.\n"
    ++ "If you want a fresh repost, delete/rename seen_jobs.json."

def chunkStep : (List (List String) × List String × Nat) → String → List (List String) × List String × Nat
  | (flushed, chunk, size), item =>
    if SLACK_CHUNK_CHAR_LIMIT < size + item.length + 2 then
      (flushed ++ [chunk], [item], item.length + 2)
    else
      (flushed, chunk ++ [item], size + item.length + 2)

def chunkFlushes (items : List String) : List (List String) :=
  match items.foldl chunkStep ([], [], 0) with
  | (flushed, chunk, _) => if chunk.isEmpty then flushed else flushed ++ [chunk]

def chunkBatchStrings (items : List String) : List String :=
  (chunkFlushes items).map (pyJoin "\n\n")

def runMessages (st : RunState) : List String :=
  if 0 < st.total_new then headerMsg st :: chunkBatchStrings st.posted
  else if 0 < st.rate_limited_queries then [rateLimitedMsg st]
  else [noNewMsg]

/-! ## Observable effect trace of one run of main -/

inductive RunEvent
  | fetchPage (group : String)
  | saveSeen (entries : List String)
  | post (msg : String)
deriving DecidableEq

def isSaveEv : RunEvent → Bool
  | .saveSeen _ => true
  | _ => false

def isFetchEv : RunEvent → Bool
  | .fetchPage _ => true
  | _ => false

def isPostEv : RunEvent → Bool
  | .post _ => true
  | _ => false

def mainTrace (seen0 : List String) (plan : Plan) : List RunEvent :=
  let st := runPlan seen0 plan
  plan.map (fun p => RunEvent.fetchPage p.1)
    ++ RunEvent.saveSeen (save_seen st.seen) :: (runMessages st).map RunEvent.post

/-! ## Sanity checks of the SHA-256 embedding against published vectors -/

def sha256HexOfString (s : String) : String := String.mk (bytesHex (sha256Bytes (utf8Encode s)))

example : sha256HexOfString "abc"
    = "ba7816bf8f01cfea414140de5dae2223b00361a396177a9cb410ff61f20015ad" := by decide

example : sha256HexOfString ""
    = "e3b0c44298fc1c149afbf4c8996fb92427ae41e4649b934ca495991b7852b855" := by decide

example : sha256HexOfString "abcdbcdecdefdefgefghfghighijhijkijkljklmklmnlmnomnopnopq"
    = "248d6a61d20638b8e5c026930c3e6039a33ce45964ff2167f6ecedd419db06c1" := by decide

/-! ## Lemmas about the retry loop -/

lemma fetchGo_agree (g1 g2 : Nat → HttpResult) :
    ∀ (k a : Nat) (rl : Bool), (∀ n, a ≤ n → n ≤ a + k → g1 n = g2 n) →
      fetchGo g1 a rl k = fetchGo g2 a rl k := by
  intro k
  induction k with
  | zero =>
    intro a rl h
    unfold fetchGo
    rw [h a (Nat.le_refl a) (Nat.le_add_right a 0)]
    cases g2 a <;> rfl
  | succ n ih =>
    intro a rl h
    unfold fetchGo
    rw [h a (Nat.le_refl a) (Nat.le_add_right a (n + 1))]
    cases g2 a with
    | ok body => rfl
    | status429 => exact ih (a + 1) true (fun m h1 h2 => h m (by omega) (by omega))
    | requestError => exact ih (a + 1) rl (fun m h1 h2 => h m (by omega) (by omega))

/-- C3: the fetch operation always terminates with a value (it is a total
function over the outcome oracle, so no exception escapes): when every
attempt yields HTTP 429 it gives up after the retry cap and returns an
empty result flagged rateLimited; when every attempt yields a request
error it returns an empty result without the flag; and the result only
ever depends on the outcomes of the first MAX_RETRIES_429 + 1 attempts,
so at most that many HTTP calls are made. -/
theorem C3_backoff_termination :
    (∀ oracle : Nat → HttpResult, (∀ n, oracle n = HttpResult.status429) →
      jsearch_request oracle = (none, true)) ∧
    (∀ oracle : Nat → HttpResult, (∀ n, oracle n = HttpResult.requestError) →
      jsearch_request oracle = (none, false)) ∧
    (∀ g1 g2 : Nat → HttpResult, (∀ n, n ≤ MAX_RETRIES_429 + 1 → g1 n = g2 n) →
      jsearch_request g1 = jsearch_request g2) := by
  refine ⟨?_, ?_, ?_⟩
  · intro oracle h
    have e : jsearch_request oracle = jsearch_request (fun _ => HttpResult.status429) :=
      fetchGo_agree oracle (fun _ => HttpResult.status429) MAX_RETRIES_429 1 false
        (fun n _ _ => h n)
    rw [e]
    decide
  · intro oracle h
    have e : jsearch_request oracle = jsearch_request (fun _ => HttpResult.requestError) :=
      fetchGo_agree oracle (fun _ => HttpResult.requestError) MAX_RETRIES_429 1 false
        (fun n _ _ => h n)
    rw [e]
    decide
  · intro g1 g2 h
    exact fetchGo_agree g1 g2 MAX_RETRIES_429 1 false (fun n h1 h2 => h n (by omega))

/-- Witness for C3 at concrete oracles. -/
theorem C3_backoff_witness :
    jsearch_request (fun _ => HttpResult.status429) = (none, true) ∧
    jsearch_request (fun _ => HttpResult.requestError) = (none, false) :=
  ⟨C3_backoff_termination.1 (fun _ => HttpResult.status429) (fun _ => rfl),
   C3_backoff_termination.2.1 (fun _ => HttpResult.requestError) (fun _ => rfl)⟩

/-! ## The US hard reject -/

/-- C4: a record whose country code field is the string US is flagged by
looks_like_us, and the main loop body drops it unchanged before the
dedupe, formatting and delivery steps, whatever its free-text city,
state and location fields say. -/
theorem C4_us_hard_reject (st : RunState) (gn : String) (job : Job)
    (h : job.job_country_code = some "US") :
    looks_like_us job = true ∧ jobStep gn st (some job) = st := by
  have hus : looks_like_us job = true := by
    simp [looks_like_us, h, show pyUpper (pyStrip "US") = "US" from by decide]
  exact ⟨hus, by simp [jobStep, hus]⟩

def usBuffaloJob : Job :=
  { emptyJob with
    job_country_code := some "US",
    job_city := some "Buffalo",
    job_state := some "Ontario",
    job_location := some "Toronto, ON, Canada" }

/-- Witness for C4: a US-coded record whose free-text fields all claim
Canada is still dropped. -/
theorem C4_us_hard_reject_witness :
    looks_like_us usBuffaloJob = true ∧
      jobStep "Software Engineering" (initState []) (some usBuffaloJob) = initState [] :=
  C4_us_hard_reject (initState []) "Software Engineering" usBuffaloJob rfl

/-! ## Keyword acceptance with no structured country evidence -/

/-- C10: with no country code and no country text, is_canada_job accepts
any record one of whose curated keywords occurs as a substring of the
lowercased, stripped concatenation of city, state and location, and such
a record is not US-flagged, so it reaches delivery-eligible status purely
on free-text keyword evidence. -/
theorem C10_keyword_substring_accepts (job : Job) (kw : String)
    (hcc : job.job_country_code = none) (hct : job.job_country = none)
    (hkw : kw ∈ CANADA_KEYWORDS)
    (hsub : strContains (combinedLocation job) kw = true) :
    is_canada_job job = true ∧ looks_like_us job = false := by
  constructor
  · simp only [is_canada_job, hcc, Option.getD_none,
      show pyUpper (pyStrip "") = "" from by decide]
    rw [if_neg (by decide)]
    simp only [hct, Option.getD_none, show pyLower (pyStrip "") = "" from by decide]
    rw [if_neg (by decide)]
    exact List.any_eq_true.mpr ⟨kw, hkw, hsub⟩
  · simp only [looks_like_us, hcc, hct, Option.getD_none,
      show pyUpper (pyStrip "") = "" from by decide,
      show pyLower (pyStrip "") = "" from by decide]
    decide

def ontarioCaliforniaJob : Job :=
  { emptyJob with job_city := some "Ontario", job_state := some "California" }

/-- Witness for C10: a Californian record whose city string happens to be
Ontario is accepted by the Canada filter. -/
theorem C10_keyword_witness :
    is_canada_job ontarioCaliforniaJob = true ∧ looks_like_us ontarioCaliforniaJob = false :=
  C10_keyword_substring_accepts ontarioCaliforniaJob "ontario" rfl rfl (by decide) (by decide)

/-! ## Fingerprint lemmas -/

lemma sha256Bytes_length (msg : List Nat) : (sha256Bytes msg).length = 32 := by
  simp [sha256Bytes, wordBytes]

lemma bytesHex_length (bs : List Nat) : (bytesHex bs).length = 2 * bs.length := by
  induction bs with
  | nil => rfl
  | cons b rest ih => simp [bytesHex, byteHex] at ih ⊢; omega

def isLowerHexChar (c : Char) : Bool := c.isDigit || ('a' ≤ c && c ≤ 'f')

lemma hexDigitChar_lower_hex : ∀ n, n < 16 → isLowerHexChar (hexDigitChar n) = true := by
  decide

lemma byteHex_lower_hex (b : Nat) (c : Char) (hc : c ∈ byteHex b) : isLowerHexChar c = true := by
  simp only [byteHex, List.mem_cons, List.not_mem_nil, or_false] at hc
  rcases hc with h | h <;> subst h <;>
    exact hexDigitChar_lower_hex _ (Nat.mod_lt _ (by norm_num))

/-- C9: stable_job_id is a pure function of the seven identity-bearing
fields it reads (job id, title, employer, city, state, country, apply
link with url fallback): records agreeing on those fields get equal
fingerprints, and every fingerprint is exactly 24 lowercase hexadecimal
characters, a SHA-256 hex-digest prefix, whatever fields are missing. -/
theorem C9_fingerprint_deterministic_and_hex :
    (∀ j1 j2 : Job, j1.job_id = j2.job_id → j1.job_title = j2.job_title →
      j1.employer_name = j2.employer_name → j1.job_city = j2.job_city →
      j1.job_state = j2.job_state → j1.job_country = j2.job_country →
      j1.job_apply_link = j2.job_apply_link → j1.job_url = j2.job_url →
      stable_job_id j1 = stable_job_id j2) ∧
    (∀ job : Job, (stable_job_id job).length = 24 ∧
      ∀ c ∈ (stable_job_id job).data, isLowerHexChar c = true) := by
  constructor
  · intro j1 j2 h1 h2 h3 h4 h5 h6 h7 h8
    have hraw : rawIdentity j1 = rawIdentity j2 := by
      simp [rawIdentity, h1, h2, h3, h4, h5, h6, h7, h8]
    simp [stable_job_id, hraw]
  · intro job
    constructor
    · show (String.mk _).length = 24
      have h1 : (bytesHex (sha256Bytes (utf8Encode (rawIdentity job)))).length = 64 := by
        rw [bytesHex_length, sha256Bytes_length]
      show (List.take 24 _).length = 24
      simp [h1]
    · intro c hc
      have hc24 : c ∈ bytesHex (sha256Bytes (utf8Encode (rawIdentity job))) :=
        List.mem_of_mem_take hc
      rcases List.mem_flatMap.mp hc24 with ⟨b, _, hcb⟩
      exact byteHex_lower_hex b c hcb

def locTorontoJob : Job := { emptyJob with job_location := some "Toronto, ON" }

def locVancouverJob : Job := { emptyJob with job_location := some "Vancouver, BC" }

/-- Witness for C9: two records agreeing on all hashed fields but with
different job_location values (which the hash never reads) share one
24-character fingerprint. -/
theorem C9_fingerprint_witness :
    stable_job_id locTorontoJob = stable_job_id locVancouverJob ∧
      (stable_job_id locTorontoJob).length = 24 :=
  ⟨C9_fingerprint_deterministic_and_hex.1 locTorontoJob locVancouverJob
      rfl rfl rfl rfl rfl rfl rfl rfl,
   (C9_fingerprint_deterministic_and_hex.2 locTorontoJob).1⟩

/-! ## C5: no whitespace or casing normalization before hashing -/

def titleCasedJob : Job := { emptyJob with job_title := some "Software Engineer" }

def titleLowerJob : Job := { emptyJob with job_title := some "software engineer" }

/-- Counterexample to C5: two records identical except for the casing of
the title get different fingerprints, because stable_job_id hashes the
raw field text without any normalization. -/
theorem C5_casing_changes_fingerprint :
    stable_job_id titleCasedJob ≠ stable_job_id titleLowerJob := by
  decide

/-- C5 amended: fingerprints are equal whenever the raw concatenation of
the identity fields is exactly equal; no whitespace or casing
normalization happens first, so only byte-identical identity fields are
guaranteed to collide. -/
theorem C5_fingerprint_exact_fields (j1 j2 : Job)
    (h : rawIdentity j1 = rawIdentity j2) : stable_job_id j1 = stable_job_id j2 := by
  simp [stable_job_id, h]

def applyLinkJob : Job := { emptyJob with job_apply_link := some "https://x.example/a" }

def urlOnlyJob : Job := { emptyJob with job_url := some "https://x.example/a" }

/-- Witness for the amended C5: the apply-link fallback makes a record
with only job_url hash identically to one with the same job_apply_link. -/
theorem C5_fingerprint_witness : stable_job_id applyLinkJob = stable_job_id urlOnlyJob :=
  C5_fingerprint_exact_fields applyLinkJob urlOnlyJob (by decide)

/-! ## C6: persisted seen-set size -/

def seen3001 : List String := (List.range 3001).map (fun n => toString n)

/-- Counterexample to C6: save_seen persists every fingerprint it is
given, with no maximum size and no eviction: a 3001-entry set is written
back whole, exceeding 3000, the only size cap appearing anywhere in the
repository (in the workflows variant). -/
theorem C6_save_seen_unbounded :
    (save_seen seen3001).length = 3001 ∧ 3000 < (save_seen seen3001).length := by
  have h : (save_seen seen3001).length = 3001 := by
    simp [save_seen, List.length_mergeSort, seen3001]
  exact ⟨h, by omega⟩

/-- C6 amended: the main script persists the entire seen set unchanged in
size (sorted, unbounded); only the workflows variant bounds its state, by
keeping the last 3000 entries of the iteration order of its set, which
caps the size at 3000 but follows set iteration order, not insertion
order. -/
theorem C6_persistence_size_facts :
    (∀ s : List String, (save_seen s).length = s.length) ∧
    (∀ l : List String, (wfStateSeen l).length ≤ 3000) := by
  constructor
  · intro s
    simp [save_seen, List.length_mergeSort]
  · intro l
    simp only [wfStateSeen, List.length_drop]
    omega

/-! ## Lemmas for idempotence: the seen set only grows during a run -/

lemma jobStep_seen_extend (gn : String) (st : RunState) (item : Option Job) :
    ∃ t, (jobStep gn st item).seen = st.seen ++ t := by
  cases item with
  | none => exact ⟨[], (List.append_nil _).symm⟩
  | some job =>
    by_cases h1 : looks_like_us job = true
    · exact ⟨[], by simp [jobStep, h1]⟩
    · by_cases h2 : is_canada_job job = true
      · by_cases h3 : stable_job_id job ∈ st.seen
        · exact ⟨[], by simp [jobStep, h1, h2, h3]⟩
        · cases hf : format_job job gn with
          | none => exact ⟨[], by simp [jobStep, h1, h2, h3, hf]⟩
          | some block => exact ⟨[stable_job_id job], by simp [jobStep, h1, h2, h3, hf]⟩
      · simp only [Bool.not_eq_true] at h2
        exact ⟨[], by simp [jobStep, h1, h2]⟩

lemma foldl_jobStep_seen_extend (gn : String) (jobs : List (Option Job)) :
    ∀ st : RunState, ∃ t, (jobs.foldl (jobStep gn) st).seen = st.seen ++ t := by
  induction jobs with
  | nil => exact fun st => ⟨[], (List.append_nil _).symm⟩
  | cons x rest ih =>
    intro st
    obtain ⟨t1, h1⟩ := jobStep_seen_extend gn st x
    obtain ⟨t2, h2⟩ := ih (jobStep gn st x)
    exact ⟨t1 ++ t2, by rw [List.foldl_cons, h2, h1, List.append_assoc]⟩

lemma pageStep_seen_extend (st : RunState) (p : PlanItem) :
    ∃ t, (pageStep st p).seen = st.seen ++ t := by
  obtain ⟨gn, data, rl⟩ := p
  cases data with
  | none => exact ⟨[], by cases rl <;> simp [pageStep]⟩
  | some jobs =>
    cases rl with
    | false =>
      obtain ⟨t, ht⟩ := foldl_jobStep_seen_extend gn jobs
        { st with total_found := st.total_found + jobs.length }
      exact ⟨t, by simpa [pageStep] using ht⟩
    | true =>
      obtain ⟨t, ht⟩ := foldl_jobStep_seen_extend gn jobs
        { st with rate_limited_queries := st.rate_limited_queries + 1,
                  total_found := st.total_found + jobs.length }
      exact ⟨t, by simpa [pageStep] using ht⟩

lemma runFold_seen_extend (plan : Plan) :
    ∀ st : RunState, ∃ t, (plan.foldl pageStep st).seen = st.seen ++ t := by
  induction plan with
  | nil => exact fun st => ⟨[], (List.append_nil _).symm⟩
  | cons p rest ih =>
    intro st
    obtain ⟨t1, h1⟩ := pageStep_seen_extend st p
    obtain ⟨t2, h2⟩ := ih (pageStep st p)
    exact ⟨t1 ++ t2, by rw [List.foldl_cons, h2, h1, List.append_assoc]⟩

/-! ## A processed job is neutralized for any later run with the final seen set -/

def Handled (S : List String) (gn : String) (item : Option Job) : Prop :=
  match item with
  | none => True
  | some job =>
    looks_like_us job = true ∨ is_canada_job job = false ∨
      stable_job_id job ∈ S ∨ format_job job gn = none

lemma Handled.mono {S T : List String} {gn : String} {item : Option Job}
    (hsub : ∀ a, a ∈ S → a ∈ T) (h : Handled S gn item) : Handled T gn item := by
  cases item with
  | none => trivial
  | some job =>
    simp only [Handled] at h ⊢
    rcases h with h | h | h | h
    · exact Or.inl h
    · exact Or.inr (Or.inl h)
    · exact Or.inr (Or.inr (Or.inl (hsub _ h)))
    · exact Or.inr (Or.inr (Or.inr h))

lemma jobStep_handled (gn : String) (st : RunState) (item : Option Job) :
    Handled (jobStep gn st item).seen gn item := by
  cases item with
  | none => trivial
  | some job =>
    simp only [Handled]
    by_cases h1 : looks_like_us job = true
    · exact Or.inl h1
    · by_cases h2 : is_canada_job job = true
      · by_cases h3 : stable_job_id job ∈ st.seen
        · refine Or.inr (Or.inr (Or.inl ?_))
          simp [jobStep, h1, h2, h3]
        · cases hf : format_job job gn with
          | none => exact Or.inr (Or.inr (Or.inr rfl))
          | some block =>
            refine Or.inr (Or.inr (Or.inl ?_))
            simp [jobStep, h1, h2, h3, hf]
      · simp only [Bool.not_eq_true] at h2
        exact Or.inr (Or.inl h2)

lemma foldl_jobStep_handled (gn : String) (jobs : List (Option Job)) :
    ∀ (st : RunState) (item : Option Job), item ∈ jobs →
      Handled ((jobs.foldl (jobStep gn) st).seen) gn item := by
  induction jobs with
  | nil => intro st item h; exact absurd h (List.not_mem_nil item)
  | cons x rest ih =>
    intro st item h
    rw [List.foldl_cons]
    rcases List.mem_cons.mp h with rfl | hrest
    · obtain ⟨t, ht⟩ := foldl_jobStep_seen_extend gn rest (jobStep gn st item)
      refine Handled.mono (fun a ha => ?_) (jobStep_handled gn st item)
      rw [ht]
      exact List.mem_append_left t ha
    · exact ih (jobStep gn st x) item hrest

lemma pageStep_handled (st : RunState) (gn : String) (jobs : List (Option Job)) (rl : Bool)
    (item : Option Job) (h : item ∈ jobs) :
    Handled ((pageStep st (gn, some jobs, rl)).seen) gn item := by
  cases rl <;> simpa [pageStep] using foldl_jobStep_handled gn jobs _ item h

lemma runFold_handled (plan : Plan) :
    ∀ (st : RunState) (gn : String) (item : Option Job) (jobs : List (Option Job)) (rl : Bool),
      (gn, some jobs, rl) ∈ plan → item ∈ jobs →
      Handled ((plan.foldl pageStep st).seen) gn item := by
  induction plan with
  | nil => intro st gn item jobs rl hmem _; exact absurd hmem (List.not_mem_nil _)
  | cons p rest ih =>
    intro st gn item jobs rl hmem hitem
    rw [List.foldl_cons]
    rcases List.mem_cons.mp hmem with hp | hrest
    · have hpage : Handled ((pageStep st p).seen) gn item := by
        rw [← hp]; exact pageStep_handled st gn jobs rl item hitem
      obtain ⟨t, ht⟩ := runFold_seen_extend rest (pageStep st p)
      refine Handled.mono (fun a ha => ?_) hpage
      rw [ht]
      exact List.mem_append_left t ha
    · exact ih (pageStep st p) gn item jobs rl hrest hitem

/-! ## Handled items leave delivery state untouched -/

lemma jobStep_noop (gn : String) (st : RunState) (item : Option Job)
    (h : Handled st.seen gn item) :
    (jobStep gn st item).seen = st.seen ∧ (jobStep gn st item).posted = st.posted ∧
      (jobStep gn st item).total_new = st.total_new := by
  cases item with
  | none => exact ⟨rfl, rfl, rfl⟩
  | some job =>
    simp only [Handled] at h
    by_cases h1 : looks_like_us job = true
    · simp [jobStep, h1]
    · by_cases h2 : is_canada_job job = true
      · by_cases h3 : stable_job_id job ∈ st.seen
        · simp [jobStep, h1, h2, h3]
        · rcases h with h | h | h | h
          · exact absurd h h1
          · rw [h2] at h; exact absurd h (by simp)
          · exact absurd h h3
          · simp [jobStep, h1, h2, h3, h]
      · simp only [Bool.not_eq_true] at h2
        simp [jobStep, h1, h2]

lemma foldl_jobStep_noop (gn : String) (jobs : List (Option Job)) :
    ∀ st : RunState, (∀ item ∈ jobs, Handled st.seen gn item) →
      (jobs.foldl (jobStep gn) st).seen = st.seen ∧
      (jobs.foldl (jobStep gn) st).posted = st.posted ∧
      (jobs.foldl (jobStep gn) st).total_new = st.total_new := by
  induction jobs with
  | nil => exact fun st _ => ⟨rfl, rfl, rfl⟩
  | cons x rest ih =>
    intro st h
    obtain ⟨e1, e2, e3⟩ := jobStep_noop gn st x (h x (List.mem_cons_self x rest))
    have hrest : ∀ item ∈ rest, Handled (jobStep gn st x).seen gn item := by
      rw [e1]; exact fun item hi => h item (List.mem_cons_of_mem x hi)
    obtain ⟨f1, f2, f3⟩ := ih (jobStep gn st x) hrest
    rw [List.foldl_cons]
    exact ⟨by rw [f1, e1], by rw [f2, e2], by rw [f3, e3]⟩

lemma pageStep_noop (st : RunState) (gn : String) (data : PageJson) (rl : Bool)
    (h : ∀ jobs, data = some jobs → ∀ item ∈ jobs, Handled st.seen gn item) :
    (pageStep st (gn, data, rl)).seen = st.seen ∧
    (pageStep st (gn, data, rl)).posted = st.posted ∧
    (pageStep st (gn, data, rl)).total_new = st.total_new := by
  cases data with
  | none => cases rl <;> simp [pageStep]
  | some jobs =>
    have hjobs := h jobs rfl
    cases rl with
    | false =>
      obtain ⟨e1, e2, e3⟩ := foldl_jobStep_noop gn jobs
        { st with total_found := st.total_found + jobs.length } hjobs
      simpa [pageStep] using ⟨e1, e2, e3⟩
    | true =>
      obtain ⟨e1, e2, e3⟩ := foldl_jobStep_noop gn jobs
        { st with rate_limited_queries := st.rate_limited_queries + 1,
                  total_found := st.total_found + jobs.length } hjobs
      simpa [pageStep] using ⟨e1, e2, e3⟩

lemma runFold_noop (plan : Plan) :
    ∀ st : RunState,
      (∀ (gn : String) (jobs : List (Option Job)) (rl : Bool) (item : Option Job),
        (gn, some jobs, rl) ∈ plan → item ∈ jobs → Handled st.seen gn item) →
      (plan.foldl pageStep st).seen = st.seen ∧
      (plan.foldl pageStep st).posted = st.posted ∧
      (plan.foldl pageStep st).total_new = st.total_new := by
  induction plan with
  | nil => exact fun st _ => ⟨rfl, rfl, rfl⟩
  | cons p rest ih =>
    intro st h
    obtain ⟨gn0, data0, rl0⟩ := p
    obtain ⟨e1, e2, e3⟩ := pageStep_noop st gn0 data0 rl0
      (fun jobs hdata item hi => h gn0 jobs rl0 item (by rw [hdata] at *; exact List.mem_cons_self _ _) hi)
    have hrest : ∀ (gn : String) (jobs : List (Option Job)) (rl : Bool) (item : Option Job),
        (gn, some jobs, rl) ∈ rest → item ∈ jobs →
        Handled (pageStep st (gn0, data0, rl0)).seen gn item := by
      rw [e1]
      exact fun gn jobs rl item hmem hi => h gn jobs rl item (List.mem_cons_of_mem _ hmem) hi
    obtain ⟨f1, f2, f3⟩ := ih (pageStep st (gn0, data0, rl0)) hrest
    rw [List.foldl_cons]
    exact ⟨by rw [f1, e1], by rw [f2, e2], by rw [f3, e3]⟩

/-- C1: idempotence of the whole run.  Run the pipeline once from any
starting seen set over any fixed upstream dataset; persist the final
seen set with save_seen; run again over the same upstream data starting
from the persisted set.  The second run delivers zero new items and
accumulates no posted blocks: every item the first run delivered left
its fingerprint in the persisted set and is dropped by the dedupe check,
and every other item is dropped again for the same reason as before. -/
theorem C1_second_run_delivers_zero (seen0 : List String) (plan : Plan) :
    (runPlan (save_seen (runPlan seen0 plan).seen) plan).total_new = 0 ∧
    (runPlan (save_seen (runPlan seen0 plan).seen) plan).posted = [] := by
  have hh : ∀ (gn : String) (jobs : List (Option Job)) (rl : Bool) (item : Option Job),
      (gn, some jobs, rl) ∈ plan → item ∈ jobs →
      Handled (initState (save_seen (runPlan seen0 plan).seen)).seen gn item := by
    intro gn jobs rl item hmem hitem
    have h1 : Handled ((runPlan seen0 plan).seen) gn item :=
      runFold_handled plan (initState seen0) gn item jobs rl hmem hitem
    refine Handled.mono (fun a ha => ?_) h1
    show a ∈ save_seen (runPlan seen0 plan).seen
    simpa [save_seen, List.mem_mergeSort] using ha
  obtain ⟨e1, e2, e3⟩ := runFold_noop plan (initState (save_seen (runPlan seen0 plan).seen)) hh
  exact ⟨e3, e2⟩

/-! ## Chunked delivery lemmas -/

def chunkSize (c : List String) : Nat := (c.map (fun s => s.length + 2)).sum

lemma chunkFold_spec (items : List String) :
    ∀ (fl : List (List String)) (ch : List String) (sz : Nat), sz = chunkSize ch →
      (items.foldl chunkStep (fl, ch, sz)).1.flatten ++ (items.foldl chunkStep (fl, ch, sz)).2.1
          = fl.flatten ++ ch ++ items ∧
      (items.foldl chunkStep (fl, ch, sz)).2.2
          = chunkSize (items.foldl chunkStep (fl, ch, sz)).2.1 := by
  induction items with
  | nil => intro fl ch sz h; exact ⟨by simp, h⟩
  | cons it rest ih =>
    intro fl ch sz h
    rw [List.foldl_cons]
    by_cases hc : SLACK_CHUNK_CHAR_LIMIT < sz + it.length + 2
    · have hstep : chunkStep (fl, ch, sz) it = (fl ++ [ch], [it], it.length + 2) := by
        simp [chunkStep, hc]
      rw [hstep]
      obtain ⟨g1, g2⟩ := ih (fl ++ [ch]) [it] (it.length + 2) (by simp [chunkSize])
      refine ⟨?_, g2⟩
      rw [g1]
      simp [List.append_assoc]
    · have hstep : chunkStep (fl, ch, sz) it = (fl, ch ++ [it], sz + (it.length + 2)) := by
        simp only [chunkStep]
        rw [if_neg hc]
        simp [Nat.add_assoc]
      rw [hstep]
      obtain ⟨g1, g2⟩ := ih fl (ch ++ [it]) (sz + (it.length + 2))
        (by simp [chunkSize, h, Nat.add_comm])
      refine ⟨?_, g2⟩
      rw [g1]
      simp [List.append_assoc]

lemma chunkFold_bound (items : List String) :
    ∀ (fl : List (List String)) (ch : List String) (sz : Nat),
      (∀ it ∈ items, it.length + 2 ≤ SLACK_CHUNK_CHAR_LIMIT) →
      sz = chunkSize ch → sz ≤ SLACK_CHUNK_CHAR_LIMIT →
      (∀ b ∈ fl, chunkSize b ≤ SLACK_CHUNK_CHAR_LIMIT) →
      (∀ b ∈ (items.foldl chunkStep (fl, ch, sz)).1, chunkSize b ≤ SLACK_CHUNK_CHAR_LIMIT) ∧
      (items.foldl chunkStep (fl, ch, sz)).2.2 ≤ SLACK_CHUNK_CHAR_LIMIT ∧
      (items.foldl chunkStep (fl, ch, sz)).2.2
          = chunkSize (items.foldl chunkStep (fl, ch, sz)).2.1 := by
  induction items with
  | nil => intro fl ch sz _ h hle hfl; exact ⟨hfl, hle, h⟩
  | cons it rest ih =>
    intro fl ch sz hits h hle hfl
    have hit : it.length + 2 ≤ SLACK_CHUNK_CHAR_LIMIT := hits it (List.mem_cons_self it rest)
    have hrest : ∀ x ∈ rest, x.length + 2 ≤ SLACK_CHUNK_CHAR_LIMIT :=
      fun x hx => hits x (List.mem_cons_of_mem it hx)
    rw [List.foldl_cons]
    by_cases hc : SLACK_CHUNK_CHAR_LIMIT < sz + it.length + 2
    · have hstep : chunkStep (fl, ch, sz) it = (fl ++ [ch], [it], it.length + 2) := by
        simp [chunkStep, hc]
      rw [hstep]
      refine ih (fl ++ [ch]) [it] (it.length + 2) hrest (by simp [chunkSize]) hit ?_
      intro b hb
      rcases List.mem_append.mp hb with hb | hb
      · exact hfl b hb
      · rcases List.mem_singleton.mp hb with rfl
        rw [← h]; exact hle
    · have hstep : chunkStep (fl, ch, sz) it = (fl, ch ++ [it], sz + (it.length + 2)) := by
        simp only [chunkStep]
        rw [if_neg hc]
        simp [Nat.add_assoc]
      rw [hstep]
      exact ih fl (ch ++ [it]) (sz + (it.length + 2)) hrest
        (by simp [chunkSize, h, Nat.add_comm]) (by omega) hfl

lemma chunkFlushes_flatten (items : List String) : (chunkFlushes items).flatten = items := by
  obtain ⟨g1, _⟩ := chunkFold_spec items [] [] 0 rfl
  rcases hfold : items.foldl chunkStep ([], [], 0) with ⟨F, C, S⟩
  rw [hfold] at g1
  simp only [List.flatten_nil, List.nil_append] at g1
  simp only [chunkFlushes, hfold]
  by_cases hC : C.isEmpty
  · rw [if_pos hC]
    rw [List.isEmpty_iff.mp hC] at g1
    simpa using g1
  · rw [if_neg hC]
    simpa [List.flatten_append] using g1

lemma chunkFlushes_bounded (items : List String)
    (hits : ∀ it ∈ items, it.length + 2 ≤ SLACK_CHUNK_CHAR_LIMIT) :
    ∀ b ∈ chunkFlushes items, chunkSize b ≤ SLACK_CHUNK_CHAR_LIMIT := by
  obtain ⟨g1, g2, g3⟩ := chunkFold_bound items [] [] 0 hits rfl (by simp [SLACK_CHUNK_CHAR_LIMIT])
    (fun b hb => absurd hb (List.not_mem_nil b))
  rcases hfold : items.foldl chunkStep ([], [], 0) with ⟨F, C, S⟩
  rw [hfold] at g1 g2 g3
  simp only [chunkFlushes, hfold]
  by_cases hC : C.isEmpty
  · rw [if_pos hC]; exact g1
  · rw [if_neg hC]
    intro b hb
    rcases List.mem_append.mp hb with hb | hb
    · exact g1 b hb
    · rcases List.mem_singleton.mp hb with rfl
      rw [← g3]; exact g2

lemma pyJoin_length_le (b : List String) : (pyJoin "\n\n" b).length ≤ chunkSize b := by
  induction b with
  | nil => simp [pyJoin, chunkSize]
  | cons x rest ih =>
    cases rest with
    | nil => simp [pyJoin, chunkSize]
    | cons y t =>
      simp only [pyJoin, chunkSize, List.map_cons, List.sum_cons, String.length_append] at ih ⊢
      have hsep : ("\n\n" : String).length = 2 := rfl
      omega

/-- C2 amended: the chunked delivery loop is lossless and order
preserving for every input (concatenating the flushed chunks in order
gives back exactly the input items, each in exactly one flush), and the
character budget holds for every delivered batch provided each single
item fits the budget by itself (item length plus its two-character
separator within the limit); a single oversized item necessarily
occupies one over-budget flush. -/
theorem C2_chunking_lossless_and_bounded :
    (∀ items : List String, (chunkFlushes items).flatten = items) ∧
    (∀ items : List String, (∀ it ∈ items, it.length + 2 ≤ SLACK_CHUNK_CHAR_LIMIT) →
      ∀ b ∈ chunkBatchStrings items, b.length ≤ SLACK_CHUNK_CHAR_LIMIT) := by
  refine ⟨chunkFlushes_flatten, ?_⟩
  intro items hits b hb
  rcases List.mem_map.mp hb with ⟨c, hc, rfl⟩
  exact le_trans (pyJoin_length_le c) (chunkFlushes_bounded items hits c hc)

/-- Witness for C2 amended at a concrete item list. -/
theorem C2_chunking_witness :
    (chunkFlushes ["aa", "bb"]).flatten = ["aa", "bb"] ∧
      ∀ b ∈ chunkBatchStrings ["aa", "bb"], b.length ≤ SLACK_CHUNK_CHAR_LIMIT :=
  ⟨C2_chunking_lossless_and_bounded.1 ["aa", "bb"],
   C2_chunking_lossless_and_bounded.2 ["aa", "bb"] (by decide)⟩

def bigItem : String := String.mk (List.replicate 3001 'a')

/-- Counterexample to C2 as stated: with a single item longer than the
budget, the loop first flushes an empty batch and then delivers the
oversized item as a batch of 3001 characters, exceeding
SLACK_CHUNK_CHAR_LIMIT = 3000. -/
theorem C2_oversized_item_breaks_budget :
    chunkBatchStrings [bigItem] = ["", bigItem] ∧
      SLACK_CHUNK_CHAR_LIMIT < bigItem.length := by
  have hlen : bigItem.length = 3001 := by
    show (List.replicate 3001 'a').length = 3001
    rw [List.length_replicate]
  have hstep : chunkStep ([], [], 0) bigItem = ([[]], [bigItem], bigItem.length + 2) := by
    simp only [chunkStep]
    rw [if_pos (by rw [hlen]; decide)]
    rfl
  have h1 : chunkFlushes [bigItem] = [[], [bigItem]] := by
    have e : [bigItem].foldl chunkStep ([], [], 0) = ([[]], [bigItem], bigItem.length + 2) := by
      rw [List.foldl_cons, hstep, List.foldl_nil]
    unfold chunkFlushes
    rw [e]
    rfl
  constructor
  · show (chunkFlushes [bigItem]).map (pyJoin "\n\n") = ["", bigItem]
    rw [h1]
    rfl
  · rw [hlen]
    decide

/-! ## C7: the run summary -/

def usOnlyPlan : Plan :=
  [("Software Engineering",
    some [some { emptyJob with job_country_code := some "US", job_city := some "Buffalo" }],
    false)]

/-- Counterexample to C7: two completed zero-new runs with different
scanned counts (0 results versus 1 scanned result) produce the identical
notification, so the zero-new notification reports neither the scanned
count nor the jurisdiction-matched count; the claimed four-count summary
is only sent when new items exist. -/
theorem C7_zero_new_summary_drops_counts :
    runMessages (runPlan [] []) = runMessages (runPlan [] usOnlyPlan) ∧
      (runPlan [] []).total_found = 0 ∧ (runPlan [] usOnlyPlan).total_found = 1 := by
  decide

/-- C7 amended: every completed run sends at least one notification and
the first one is the summary for the run; a run with zero new items
sends exactly one notification (the no-new notice, which carries the
rate-limited count only when it is positive), and a run with new items
leads with the four-count header followed by the chunked job batches. -/
theorem C7_one_leading_summary (seen0 : List String) (plan : Plan) :
    runMessages (runPlan seen0 plan) ≠ [] ∧
    ((runPlan seen0 plan).total_new = 0 → (runMessages (runPlan seen0 plan)).length = 1) ∧
    (0 < (runPlan seen0 plan).total_new →
      (runMessages (runPlan seen0 plan)).head? = some (headerMsg (runPlan seen0 plan))) := by
  by_cases hnew : 0 < (runPlan seen0 plan).total_new
  · refine ⟨by simp [runMessages, hnew], fun h0 => absurd h0 (by omega), fun _ => ?_⟩
    simp [runMessages, hnew]
  · by_cases hrl : 0 < (runPlan seen0 plan).rate_limited_queries
    · exact ⟨by simp [runMessages, hnew, hrl], fun _ => by simp [runMessages, hnew, hrl],
        fun h => absurd h hnew⟩
    · exact ⟨by simp [runMessages, hnew, hrl], fun _ => by simp [runMessages, hnew, hrl],
        fun h => absurd h hnew⟩

/-- Witness for C7 amended on a concrete empty run. -/
theorem C7_summary_witness :
    runMessages (runPlan [] []) ≠ [] ∧ (runMessages (runPlan [] [])).length = 1 :=
  ⟨(C7_one_leading_summary [] []).1, (C7_one_leading_summary [] []).2.1 rfl⟩

/-! ## C8: when the seen set is written -/

/-- Counterexample to C8 as stated: on a run with no new items the trace
of effects ends with a delivery post, not with the seen-set write; the
write happens before delivery (line 345 precedes the Slack output block
at lines 351-384), so the store write is not the last action of a run. -/
theorem C8_delivery_after_persist :
    mainTrace [] [] = [RunEvent.saveSeen (save_seen []), RunEvent.post noNewMsg] ∧
      (mainTrace [] []).getLast? = some (RunEvent.post noNewMsg) := by
  have h : mainTrace [] [] = [RunEvent.saveSeen (save_seen []), RunEvent.post noNewMsg] := by
    simp [mainTrace, runPlan, initState, runMessages]
  exact ⟨h, by rw [h]; rfl⟩

/-- C8 amended: every run writes the seen store exactly once, after all
fetching, filtering, dedup and formatting (every earlier event is a page
fetch) and before any delivery (every later event is a notification
post); the write therefore happens regardless of how delivery turns
out, because it precedes delivery. -/
theorem C8_single_save_before_delivery (seen0 : List String) (plan : Plan) :
    ∃ pre rest, mainTrace seen0 plan
        = pre ++ RunEvent.saveSeen (save_seen (runPlan seen0 plan).seen) :: rest ∧
      (∀ e ∈ pre, isFetchEv e = true) ∧ (∀ e ∈ rest, isPostEv e = true) ∧
      (mainTrace seen0 plan).countP isSaveEv = 1 := by
  have hm : mainTrace seen0 plan
      = plan.map (fun p => RunEvent.fetchPage p.1)
        ++ RunEvent.saveSeen (save_seen (runPlan seen0 plan).seen)
          :: (runMessages (runPlan seen0 plan)).map RunEvent.post := rfl
  refine ⟨plan.map (fun p => RunEvent.fetchPage p.1),
    (runMessages (runPlan seen0 plan)).map RunEvent.post, hm, ?_, ?_, ?_⟩
  · intro e he
    rcases List.mem_map.mp he with ⟨p, _, rfl⟩
    rfl
  · intro e he
    rcases List.mem_map.mp he with ⟨m, _, rfl⟩
    rfl
  · rw [hm, List.countP_append, List.countP_cons, List.countP_map, List.countP_map]
    have z1 : List.countP (isSaveEv ∘ fun p => RunEvent.fetchPage p.1) plan = 0 :=
      List.countP_eq_zero.mpr (fun a _ => by simp [isSaveEv, Function.comp])
    have z2 : List.countP (isSaveEv ∘ RunEvent.post) (runMessages (runPlan seen0 plan)) = 0 :=
      List.countP_eq_zero.mpr (fun a _ => by simp [isSaveEv, Function.comp])
    rw [z1, z2]
    rfl

/-- Witness for C8 amended on a concrete empty run. -/
theorem C8_single_save_witness :
    ∃ pre rest, mainTrace [] []
        = pre ++ RunEvent.saveSeen (save_seen (runPlan [] []).seen) :: rest ∧
      (∀ e ∈ pre, isFetchEv e = true) ∧ (∀ e ∈ rest, isPostEv e = true) ∧
      (mainTrace [] []).countP isSaveEv = 1 :=
  C8_single_save_before_delivery [] []
